import Mathlib

/-!
Verification of the mzbuild container-image build orchestrator
(src/misc/python/materialize/mzbuild.py) against its specification.

The Python source is shallowly embedded: pure fragments become Lean
functions, stateful methods become explicit state passing, fallible code
returns Except, and external collaborators (the SHA-1 primitive, the
filesystem, the Docker registry, the cargo workspace probe) are passed in
as explicit parameters.  Machine integers do not occur: all Python
integers here are unbounded, matching Nat and Int.

The file has two parts: first the definitions embedding the source, then
the theorems about them.
-/

namespace Mzbuild

/-! ### Generic list and string helpers

Python `sorted` and `list.sort()` are stable ascending sorts comparing
strings by code points.  We model them with a stable insertion sort over a
boolean comparison; `strLe` is the code-point lexicographic order that
Python uses on `str` (and on `bytes`, byte-wise).
-/

def charListLt : List Char → List Char → Bool
  | [], [] => false
  | [], _ :: _ => true
  | _ :: _, [] => false
  | a :: as, b :: bs => if a < b then true else if b < a then false else charListLt as bs

def strLe (a b : String) : Bool := !(charListLt b.data a.data)

/-- Stable insert: the new element goes after every existing element that
compares less-or-equal to it, matching the stability of Python sorts. -/
def insertStable (le : α → α → Bool) (a : α) : List α → List α
  | [] => [a]
  | b :: l => if le b a then b :: insertStable le a l else a :: b :: l

/-- Stable insertion sort, the model of Python `sorted` / `list.sort()`. -/
def isort (le : α → α → Bool) : List α → List α
  | [] => []
  | a :: l => insertStable le a (isort le l)

/-! ### Sanitizer and RepositoryDetails

The `Sanitizer` enum lives in `materialize/rustc_flags.py`, which is not
under src/.  Modelled from the spec: the sanitizer axis is the enum
`{none, address, hwaddress, cfi, thread, leak, memory}` and the tag fed to
the fingerprint for a non-none sanitizer is "the sanitizer lowercase
name", its `value`. -/
inductive Sanitizer where
  | none
  | address
  | hwaddress
  | cfi
  | thread
  | leak
  | memory
deriving DecidableEq

/-- Modelled from the spec: the lowercase name of the sanitizer. -/
def Sanitizer.value : Sanitizer → String
  | .none => "none"
  | .address => "address"
  | .hwaddress => "hwaddress"
  | .cfi => "cfi"
  | .thread => "thread"
  | .leak => "leak"
  | .memory => "memory"

/-- The build-axis fields of `RepositoryDetails` that the embedded
functions consult (`release_mode`, `coverage`, `sanitizer`).  The
remaining fields (root, arch, registry, prefix, workspace) are paths and
external collaborators that the embedded fragments receive explicitly. -/
structure RepositoryDetails where
  release_mode : Bool
  coverage : Bool
  sanitizer : Sanitizer

/-! ### C3: CargoPreImage.extra (mzbuild.py lines 248-259)

The Python source is

    flags: list[str] = []
    if self.rd.release_mode:
        flags += "release"
    if self.rd.coverage:
        flags += "coverage"
    if self.rd.sanitizer != Sanitizer.none:
        flags += self.rd.sanitizer.value
    flags.sort()
    return ",".join(flags)

In Python, `list += str` extends the list with the individual characters
of the string (each a one-character string), not with the string as a
single element.  `pyStrChars` models that extension. -/

def pyStrChars (s : String) : List String := s.data.map (fun c => String.mk [c])

def CargoPreImage.extra (rd : RepositoryDetails) : String :=
  let flags : List String := []
  let flags := if rd.release_mode then flags ++ pyStrChars "release" else flags
  let flags := if rd.coverage then flags ++ pyStrChars "coverage" else flags
  let flags :=
    if rd.sanitizer ≠ Sanitizer.none then flags ++ pyStrChars rd.sanitizer.value else flags
  String.intercalate "," (isort strLe flags)

/-! ### C2: ResolvedImage.is_published_if_necessary (mzbuild.py lines 668-673)

    if self.publish and is_docker_image_pushed(self.spec()):
        return True
    return False

`publish` is the underlying image publish flag; the remote registry check
`is_docker_image_pushed` is an external collaborator passed as a
function of the spec string. -/

def is_published_if_necessary (publish : Bool) (spec : String)
    (is_docker_image_pushed : String → Bool) : Bool :=
  if publish && is_docker_image_pushed spec then true else false

/-! ### C9: the Image name check (mzbuild.py lines 521-524)

    if re.search(r"[^A-Za-z0-9\-]", self.name):
        raise ValueError(...)

`re.search` over the negated character class succeeds iff some character
of the name is outside A-Z, a-z, 0-9 and hyphen. -/

def nameCharAllowed (c : Char) : Bool :=
  ('A' ≤ c && c ≤ 'Z') || ('a' ≤ c && c ≤ 'z') || ('0' ≤ c && c ≤ '9') || c = '-'

/-- The name validation performed by `Image.__init__`: construction fails
iff the name contains a character outside the allowed class. -/
def imageNameCheck (name : String) : Except String String :=
  if name.data.any (fun c => !(nameCharAllowed c)) then
    Except.error
      ("mzbuild image name " ++ name ++
        " contains invalid character; only alphanumerics and hyphens allowed")
  else Except.ok name

/-- The regular expression from the claim, compiled by hand:
a name matches the anchored pattern iff it is nonempty and every character
is in A-Za-z0-9 or a hyphen. -/
def matchesNameRegex (name : String) : Bool :=
  decide (name ≠ "") && name.data.all nameCharAllowed

/-! ### C4 / C10: the acquisition state machine

`ResolvedImage.acquired` starts false (`__init__`), is set from the local
Docker image listing by `DependencySet.__init__` (line 798), and is set to
true inside `try_pull` (line 665).  `ResolvedImage.build` never assigns
it; the assignment `self.acquired = True` at line 458 executes inside
`CargoBuild.build`, so it lands on the pre-image object, not on the
`ResolvedImage`. -/

inductive SpawnErr where
  | subprocessError
deriving DecidableEq

structure PullState where
  acquired : Bool
deriving DecidableEq

/-- Modelled from the spec: `spawn.run_with_retries` lives in
`materialize/spawn.py`, which is not under src/.  Spec section 7: a
transient pull failure is retried under the duration budget and, after
the budget is exhausted, becomes a `SubprocessError`.  `pullSucceeds`
abstracts whether some retry within the budget succeeds. -/
def run_with_retries (pullSucceeds : Bool) : Except SpawnErr Unit :=
  if pullSucceeds then Except.ok () else Except.error SpawnErr.subprocessError

/-- ResolvedImage.try_pull (mzbuild.py lines 654-666):

    if not self.acquired:
        spawn.run_with_retries(lambda: spawn.runv(["docker", "pull", ...]), max_duration)
        self.acquired = True
    return self.acquired

The returned pair is (return value, state of the image afterwards). -/
def try_pull (pullSucceeds : Bool) (st : PullState) : Except SpawnErr (Bool × PullState) :=
  if !st.acquired then
    match run_with_retries pullSucceeds with
    | Except.error e => Except.error e
    | Except.ok () =>
      let st2 : PullState := ⟨true⟩
      Except.ok (st2.acquired, st2)
  else Except.ok (st.acquired, st)

/-- The collection phase of DependencySet.acquire (mzbuild.py line 824):

    deps_to_build = [dep for dep in self if not dep.try_pull(max_duration)]

Each dependency is given as (whether its pull would succeed, its state);
the result is the list of dependency states collected for building. -/
def acquire_deps_to_build : List (Bool × PullState) → Except SpawnErr (List PullState)
  | [] => Except.ok []
  | (ps, st) :: rest =>
    match try_pull ps st with
    | Except.error e => Except.error e
    | Except.ok (found, st2) =>
      match acquire_deps_to_build rest with
      | Except.error e => Except.error e
      | Except.ok l => Except.ok (if found then l else st2 :: l)

/-- The stray attribute assigned by `CargoBuild.build` at line 458
(`self.acquired = True` with `self` a `CargoBuild`). -/
structure CargoBuildState where
  acquired : Bool
deriving DecidableEq

/-- The mutable attributes of a `ResolvedImage` and of its cargo-build
pre-image objects; filesystem and subprocess effects of `build` are
external and not part of this state. -/
structure ResolvedImageState where
  acquired : Bool
  preImages : List CargoBuildState
deriving DecidableEq

/-- ResolvedImage.build (mzbuild.py lines 624-652): runs `git clean`, the
pre-image actions, and `docker build` (all external effects), assigning no
attribute of the `ResolvedImage` itself.  The only attribute assignment in
the call tree is line 458, which sets `acquired = True` on each cargo
pre-image object that runs. -/
def ResolvedImage.build_state (st : ResolvedImageState) : ResolvedImageState :=
  ⟨st.acquired, st.preImages.map (fun _ => ⟨true⟩)⟩

/-- DependencySet.__init__ (mzbuild.py line 798):
`image.acquired = image.spec() in known_images`. -/
def DependencySet.init_acquired (spec : String) (known_images : List String) : Bool :=
  known_images.contains spec

/-! ### C5: CargoBuild.generate_cargo_build_command (mzbuild.py lines 280-348)

The cargo invocation is started by `rd.cargo(...)` (module
`materialize/xcompile.py`, not under src/) and the owning package of each
binary and example comes from the cargo workspace probe; both are passed
in as parameters (`cargo_base`, `crate_for_bin`, `crate_for_example`).
The job count appended when a sanitizer is active is
`str(round(multiprocessing.cpu_count() * 2 / 3))`; Python `round` is
round-half-to-even, modelled exactly over the rationals (the fractional
part of `2*n/3` is 0, 1/3 or 2/3, so the float evaluation and the tie
rule never matter for attainable CPU counts). -/

def pythonRound (q : ℚ) : ℤ :=
  if q - ⌊q⌋ < 1/2 then ⌊q⌋
  else if (1 : ℚ)/2 < q - ⌊q⌋ then ⌊q⌋ + 1
  else if ⌊q⌋ % 2 = 0 then ⌊q⌋ else ⌊q⌋ + 1

/-- `str(round(multiprocessing.cpu_count() * 2 / 3))` (line 345). -/
def cargoJobsArg (cpu_count : Nat) : String :=
  toString (pythonRound ((cpu_count * 2 : ℚ) / 3))

/-- Python `set.add`: the iteration order of a Python `set` of strings is
unspecified; it is modelled as first-insertion order, which C5 does not
depend on. -/
def pySetAdd (l : List String) (a : String) : List String :=
  if l.contains a then l else l ++ [a]

def generate_cargo_build_command (cargo_base : List String)
    (crate_for_bin crate_for_example : String → String)
    (rd : RepositoryDetails) (cpu_count : Nat)
    (bins examples : List String) : List String :=
  let cmd := cargo_base ++ (bins.map (fun b => ["--bin", b])).flatten
  let packages := bins.foldl (fun acc b => pySetAdd acc (crate_for_bin b)) []
  let cmd := cmd ++ (examples.map (fun e => ["--example", e])).flatten
  let packages := examples.foldl (fun acc e => pySetAdd acc (crate_for_example e)) packages
  let cmd := cmd ++ packages.map (fun p => "--package=" ++ p)
  let cmd := if rd.release_mode then cmd ++ ["--release"] else cmd
  if rd.sanitizer ≠ Sanitizer.none then
    cmd ++ ["--no-default-features"] ++ ["--jobs", cargoJobsArg cpu_count]
  else cmd

/-! ### C8: ResolvedImage.write_dockerfile (mzbuild.py lines 605-622)

The Dockerfile is read as bytes and processed line by line (readlines
keeps the line terminator on each line).  A line matching the anchored
regex rb"^MZFROM\s*(\S+)" has the matched region substituted by
b"FROM %b" % spec; all other lines are written unchanged.  Lines are
modelled as lists of characters (the file content is byte-for-byte these
code points for ASCII Dockerfiles, and the rewrite logic is
byte-oblivious). -/

def pyIsSpace (c : Char) : Bool :=
  c = ' ' || c = '\t' || c = '\n' || c = '\r' || c = '\x0b' || c = '\x0c'

/-- Matching of rb"^MZFROM\s*(\S+)" against the start of a line: the
literal MZFROM, a maximal (possibly empty) run of whitespace, then a
maximal nonempty run of non-whitespace as group 1.  Returns the group and
the rest of the line after the matched region. -/
def mzfromMatch (line : List Char) : Option (List Char × List Char) :=
  if line.take 6 = "MZFROM".data then
    let after := line.drop 6
    let rest1 := after.dropWhile pyIsSpace
    let grp := rest1.takeWhile (fun c => !(pyIsSpace c))
    let rest2 := rest1.dropWhile (fun c => !(pyIsSpace c))
    if grp.isEmpty then Option.none else Option.some (grp, rest2)
  else Option.none

/-- write_dockerfile: `depSpec` maps a dependency name to
`self.dependencies[name].spec()`; every name matched by an MZFROM line is
in `dependencies` because `Image.__init__` collects exactly the MZFROM
matches into `depends_on` and `DependencySet` resolves all of them. -/
def write_dockerfile (depSpec : String → String) (lines : List (List Char)) :
    List (List Char) :=
  lines.map (fun line =>
    match mzfromMatch line with
    | Option.some (grp, rest) => "FROM ".data ++ (depSpec (String.mk grp)).data ++ rest
    | Option.none => line)

/-! ### C1: ResolvedImage.fingerprint (mzbuild.py lines 727-776)

Byte strings are lists of naturals below 256.  The SHA-1 primitive is an
external collaborator (`hashlib`), passed in as a function `sha1` from
bytes to bytes; a `hashlib` object fed a sequence of `update` calls
digests the concatenation of the fed chunks, so each hash object is
modelled by the byte list it has been fed.

The filesystem is a map `fs` from a relative path to its `lstat` mode and
the bytes `open(path, "rb").read()` returns.  The input path set of the
image (`git.expand_globs` over the mzbuild context plus the pre-image
input sets) and the `extra()` string of each pre-image action in declared
order are data of the image. -/

abbrev Bytes := List Nat

/-- UTF-8 encoding of one character, the model of Python `str.encode()`. -/
def charUTF8 (c : Char) : Bytes :=
  let n := c.toNat
  if n < 128 then [n]
  else if n < 2048 then [192 + n / 64, 128 + n % 64]
  else if n < 65536 then [224 + n / 4096, 128 + n / 64 % 64, 128 + n % 64]
  else [240 + n / 262144, 128 + n / 4096 % 64, 128 + n / 64 % 64, 128 + n % 64]

def strBytes (s : String) : Bytes := (s.data.map charUTF8).flatten

structure FileStat where
  st_mode : Nat
  contents : Bytes

/-- The simplified file mode computed at mzbuild.py lines 745-753:
`stat.S_ISLNK` tests `(mode & 0o170000) == 0o120000` and `stat.S_IXUSR`
is the bit `0o100`. -/
def simplified_file_mode (raw_file_mode : Nat) : Nat :=
  if raw_file_mode / 4096 % 16 = 10 then 0o120000
  else if raw_file_mode / 64 % 2 = 1 then 0o100755
  else 0o100644

/-- `file_mode.to_bytes(2, byteorder="big")`. -/
def mode2be (m : Nat) : Bytes := [m / 256 % 256, m % 256]

/-- Python `str(bool)`, as interpolated by `f"coverage={...}"`. -/
def pyBoolStr (b : Bool) : String := if b then "True" else "False"

/-- The build-axis strings interpolated at mzbuild.py lines 765-767:
`str(arch)`, `str(coverage)`, `str(sanitizer)`.  `arch` and `sanitizer`
stringify through enums outside src/, so their rendered forms are carried
abstractly. -/
structure Axes where
  archStr : String
  coverage : Bool
  sanitizerStr : String

/-- A resolved image as `fingerprint` consumes it: its name, its input
path list (the result of `git.expand_globs(root, *self.inputs())`), the
`extra()` strings of its pre-image actions in declared order, and its
resolved dependencies.  Dependency names are unique because
`ResolvedImage.dependencies` is a dict keyed by name. -/
inductive RImage where
  | mk (name : String) (inputs : List String) (preExtras : List String) (deps : List RImage)

def RImage.name : RImage → String
  | .mk n _ _ _ => n

def pairLe (a b : String × Bytes) : Bool := strLe a.1 b.1

/-- The bytes fed to the first hash object `H` (mzbuild.py lines 739-767):
per input path in sorted order (`sorted(set(...))`), the simplified mode
as two big-endian bytes, the path bytes, the SHA-1 digest of the file
contents and a zero byte; then per pre-image action the `extra()` bytes
and a zero byte; then the three axis strings. -/
def selfHashBytes (sha1 : Bytes → Bytes) (fs : String → FileStat) (ax : Axes)
    (inputs : List String) (preExtras : List String) : Bytes :=
  ((isort strLe inputs.dedup).map (fun rel_path =>
      mode2be (simplified_file_mode (fs rel_path).st_mode) ++ strBytes rel_path ++
        sha1 (fs rel_path).contents ++ [0])).flatten
  ++ (preExtras.map (fun e => strBytes e ++ [0])).flatten
  ++ strBytes ("arch=" ++ ax.archStr)
  ++ strBytes ("coverage=" ++ pyBoolStr ax.coverage)
  ++ strBytes ("sanitizer=" ++ ax.sanitizerStr)

mutual
/-- ResolvedImage.fingerprint: the digest of the second hash object `F`,
fed the digest of `H` and then, for each dependency sorted by name
(line 771), the dependency name bytes, its raw fingerprint and a zero
byte.  The Python loop sorts the dependency objects by name and then
feeds (name, fingerprint, zero) per object; `dependencies` is a dict
keyed by name, so sorting the (name, fingerprint) pairs by name feeds the
identical byte sequence. -/
def fingerprint (sha1 : Bytes → Bytes) (fs : String → FileStat) (ax : Axes) :
    RImage → Bytes
  | .mk _ inputs preExtras deps =>
    sha1 (sha1 (selfHashBytes sha1 fs ax inputs preExtras) ++
      ((isort pairLe (depPairs sha1 fs ax deps)).map
        (fun p => strBytes p.1 ++ p.2 ++ [0])).flatten)
termination_by img => sizeOf img
decreasing_by
  simp

/-- The (dep.name, dep.fingerprint()) pair of each dependency, in the
declared order of the dependency dict. -/
def depPairs (sha1 : Bytes → Bytes) (fs : String → FileStat) (ax : Axes) :
    List RImage → List (String × Bytes)
  | [] => []
  | d :: ds => (d.name, fingerprint sha1 fs ax d) :: depPairs sha1 fs ax ds
termination_by l => sizeOf l
decreasing_by
  all_goals simp
  all_goals omega
end

/-! The canonical algorithm exactly as the claim words it, with each hash
object represented by a fold that feeds it chunk after chunk. -/

/-- Steps 1-4 of the claimed canonical algorithm: the hash `H` fed, for
each input path sorted lexicographically, the simplified mode as two
big-endian bytes, the relative path bytes, the content digest and a zero
byte; then per pre-image action the extra bytes and a zero byte; then the
three literal axis strings. -/
def specFeedH (sha1 : Bytes → Bytes) (fs : String → FileStat) (ax : Axes)
    (inputs : List String) (preExtras : List String) : Bytes :=
  let fed := (isort strLe inputs.dedup).foldl (fun acc rel_path =>
    acc ++ mode2be (simplified_file_mode (fs rel_path).st_mode) ++ strBytes rel_path ++
      sha1 (fs rel_path).contents ++ [0]) []
  let fed := preExtras.foldl (fun acc e => acc ++ strBytes e ++ [0]) fed
  fed ++ strBytes ("arch=" ++ ax.archStr) ++ strBytes ("coverage=" ++ pyBoolStr ax.coverage)
    ++ strBytes ("sanitizer=" ++ ax.sanitizerStr)

mutual
/-- Steps 5-6 of the claimed canonical algorithm: the digest of a hash `F`
fed the digest of `H` and, for each dependency sorted by name, the
dependency name bytes, its raw fingerprint and a zero byte. -/
def fingerprintSpec (sha1 : Bytes → Bytes) (fs : String → FileStat) (ax : Axes) :
    RImage → Bytes
  | .mk _ inputs preExtras deps =>
    sha1 ((isort pairLe (fingerprintPairs sha1 fs ax deps)).foldl
      (fun acc p => acc ++ strBytes p.1 ++ p.2 ++ [0])
      (sha1 (specFeedH sha1 fs ax inputs preExtras)))
termination_by img => sizeOf img
decreasing_by
  simp

/-- The (name, fingerprint) pair of each dependency, in declared order. -/
def fingerprintPairs (sha1 : Bytes → Bytes) (fs : String → FileStat) (ax : Axes) :
    List RImage → List (String × Bytes)
  | [] => []
  | d :: ds => (d.name, fingerprintSpec sha1 fs ax d) :: fingerprintPairs sha1 fs ax ds
termination_by l => sizeOf l
decreasing_by
  all_goals simp
  all_goals omega
end

/-! ### C6 / C7: Repository.resolve_dependencies (mzbuild.py lines 1035-1065)

    resolved = OrderedDict()
    visiting = set()

    def visit(image, path=[]):
        if image.name in resolved:
            return
        if image.name in visiting:
            diagram = " -> ".join(path + [image.name])
            raise ValueError("circular dependency in mzbuild: " + diagram)
        visiting.add(image.name)
        for d in sorted(image.depends_on):
            visit(self.images[d], path + [image.name])
        resolved[image.name] = image

    for target_image in sorted(targets, key=lambda image: image.name):
        visit(target_image)

    return DependencySet(resolved.values())

For the resolver an image is its name and its dependency name list;
`self.images` is the name-to-image registry (`Repository.images`), in
which every key maps to an image carrying that name.  Python recursion is
unbounded, so `visit` takes a fuel argument; `outOfFuel` marks fuel
exhaustion and occurs for no run with sufficient fuel.  `DependencySet`
iterates its images in the insertion order of the `resolved` ordered
dict, which is the list order produced here. -/

structure Image where
  name : String
  depends_on : List String
deriving DecidableEq

inductive ResolveErr where
  | circularDependency (diagram : String) (path : List String)
  | keyError (name : String)
  | outOfFuel
deriving DecidableEq

structure VisitState where
  resolved : List Image
  visiting : List String
deriving DecidableEq

/-- `resolved[image.name] = image` on an ordered dict keyed by name:
a fresh key is appended at the end, an existing key keeps its position
and has its value replaced. -/
def odInsert (res : List Image) (img : Image) : List Image :=
  if res.any (fun i => i.name = img.name) then
    res.map (fun i => if i.name = img.name then img else i)
  else res ++ [img]

/-- `self.images[d]`: dict lookup in the image registry. -/
def lookupImage (images : List (String × Image)) (n : String) : Option Image :=
  (images.find? (fun p => p.1 = n)).map (fun p => p.2)

def imageLe (a b : Image) : Bool := strLe a.name b.name

/-- The sequencing of a Python `for` loop whose body may raise: run the
step on each element in order, stopping at the first error. -/
def exceptFold (f : VisitState → α → Except ResolveErr VisitState) :
    List α → VisitState → Except ResolveErr VisitState
  | [], st => Except.ok st
  | d :: ds, st =>
    match f st d with
    | Except.error e => Except.error e
    | Except.ok st2 => exceptFold f ds st2

def visit (images : List (String × Image)) :
    Nat → Image → List String → VisitState → Except ResolveErr VisitState
  | 0, _, _, _ => Except.error ResolveErr.outOfFuel
  | fuel + 1, image, path, st =>
    if st.resolved.any (fun i => i.name = image.name) then Except.ok st
    else if st.visiting.contains image.name then
      Except.error (ResolveErr.circularDependency
        (String.intercalate " -> " (path ++ [image.name])) (path ++ [image.name]))
    else
      (exceptFold (fun st2 d =>
          match lookupImage images d with
          | Option.none => Except.error (ResolveErr.keyError d)
          | Option.some child => visit images fuel child (path ++ [image.name]) st2)
        (isort strLe image.depends_on) ⟨st.resolved, image.name :: st.visiting⟩).map
        (fun (st3 : VisitState) => ⟨odInsert st3.resolved image, st3.visiting⟩)

def resolve_dependencies (images : List (String × Image)) (fuel : Nat)
    (targets : List Image) : Except ResolveErr (List Image) :=
  (exceptFold (fun st t => visit images fuel t [] st) (isort imageLe targets)
    (⟨[], []⟩ : VisitState)).map (fun st => st.resolved)

/-- The topological-order property of a resolved list: every entry has
each of its dependency names carried by some strictly earlier entry. -/
def Closed (l : List Image) : Prop :=
  ∀ (k : Nat) (img : Image), l[k]? = Option.some img →
    ∀ d ∈ img.depends_on, d ∈ (l.take k).map Image.name

/-- The part of the soundness invariant shared by every successful
resolver step from state `st` to state `st'`: the resolved list is only
extended, and only with names that were not being visited; the visiting
set only grows; the topological-order property is preserved. -/
def VisitOk (st st' : VisitState) : Prop :=
  (∃ Δ, st'.resolved = st.resolved ++ Δ ∧ ∀ i ∈ Δ, i.name ∉ st.visiting) ∧
  (∀ n, n ∈ st.visiting → n ∈ st'.visiting) ∧
  (Closed st.resolved → Closed st'.resolved)

/-- The concrete images of the cycle scenario S3: a -> b -> c -> a. -/
def imgA : Image := ⟨"a", ["b"]⟩

def imgB : Image := ⟨"b", ["c"]⟩

def imgC : Image := ⟨"c", ["a"]⟩

def regCycle : List (String × Image) := [("a", imgA), ("b", imgB), ("c", imgC)]

/-- An acyclic variant: a -> b -> c with c depending on nothing. -/
def imgCLeaf : Image := ⟨"c", []⟩

def regLinear : List (String × Image) := [("a", imgA), ("b", imgB), ("c", imgCLeaf)]

/-! ## Theorems -/

/-! ### Sorting helper lemmas -/

theorem mem_insertStable (le : α → α → Bool) (a x : α) (l : List α) :
    x ∈ insertStable le a l ↔ x = a ∨ x ∈ l := by
  induction l with
  | nil => simp [insertStable]
  | cons b t ih =>
    simp only [insertStable]
    by_cases h : le b a = true <;> simp [h, ih] <;> tauto

theorem mem_isort (le : α → α → Bool) (x : α) (l : List α) :
    x ∈ isort le l ↔ x ∈ l := by
  induction l with
  | nil => simp [isort]
  | cons a t ih => simp [isort, mem_insertStable, ih]

/-! ### C2: is_published_if_necessary -/

/-- C2 counterexample: the claim states that `is_published_if_necessary`
returns true whenever `publish == false`, but for a non-publishable image
the code falls through to `return False` regardless of the registry
check. -/
theorem C2_counterexample :
    ¬ (∀ (publish : Bool) (spec : String) (pushed : String → Bool),
        is_published_if_necessary publish spec pushed = (!publish || pushed spec)) := by
  intro h
  exact absurd (h false "materialize/environmentd" (fun _ => false)) (by decide)

/-- C2 (amended): `is_published_if_necessary()` returns true iff
`publish == true` and the remote registry check confirms that the spec of
the image exists in the registry; in particular it returns false for
every image with `publish == false`. -/
theorem C2_is_published_if_necessary (publish : Bool) (spec : String)
    (pushed : String → Bool) :
    is_published_if_necessary publish spec pushed = (publish && pushed spec) := by
  simp [is_published_if_necessary]

/-! ### C3: CargoPreImage.extra -/

/-- C3 counterexample: with release mode on, coverage off and sanitizer
none, `extra()` returns the sorted comma-joined characters of the word
release, not the tag itself, because `flags += "release"` extends the
Python list with the individual characters of the string. -/
theorem C3_counterexample :
    CargoPreImage.extra ⟨true, false, Sanitizer.none⟩ = "a,e,e,e,l,r,s" ∧
    "a,e,e,e,l,r,s" ≠ "release" := by
  exact ⟨rfl, by decide⟩

/-- C3 (amended): for every cargo pre-image, `extra()` returns the
sorted, comma-joined list of the individual characters of the axis tags
that are present (the characters of release when release mode is set, of
coverage when coverage is set, and of the sanitizer lowercase name when
the sanitizer is not none). -/
theorem C3_extra (rd : RepositoryDetails) :
    CargoPreImage.extra rd =
      String.intercalate "," (isort strLe
        ((if rd.release_mode then pyStrChars "release" else []) ++
         (if rd.coverage then pyStrChars "coverage" else []) ++
         (if rd.sanitizer ≠ Sanitizer.none then pyStrChars rd.sanitizer.value else []))) := by
  rcases rd with ⟨r, c, s⟩
  simp only [CargoPreImage.extra]
  cases r <;> cases c <;> by_cases hs : s = Sanitizer.none <;> simp [hs]

/-! ### C9: the Image name check -/

/-- C9 counterexample: the empty name does not match the claimed regular
expression (which requires at least one character), yet `Image.__init__`
accepts it, because `re.search` over the negated class finds no invalid
character in the empty string.  (The separate check of `Repository`,
line 937, is what rejects empty names, not `Image` construction.) -/
theorem C9_counterexample :
    imageNameCheck "" = Except.ok "" ∧ matchesNameRegex "" = false := by
  exact ⟨rfl, rfl⟩

/-- C9 (amended): `Image.__init__` accepts a name iff every character of
the name is an ASCII alphanumeric or a hyphen (the empty name is
accepted); consequently every accepted nonempty name matches the claimed
pattern, and any manifest whose name has a character outside the class
fails with the descriptive invalid-character error. -/
theorem C9_imageNameCheck (name : String) :
    (imageNameCheck name = Except.ok name ↔ name.data.all nameCharAllowed = true) ∧
    (name.data.all nameCharAllowed = true → name ≠ "" → matchesNameRegex name = true) := by
  have key : (name.data.any (fun c => !(nameCharAllowed c))) = !(name.data.all nameCharAllowed) := by
    induction name.data with
    | nil => rfl
    | cons c t ih => simp [List.any_cons, List.all_cons, ih]
  cases hall : name.data.all nameCharAllowed with
  | false =>
    constructor
    · simp [imageNameCheck, key, hall]
    · simp
  | true =>
    constructor
    · simp [imageNameCheck, key, hall]
    · intro _ hne
      simp [matchesNameRegex, hall, hne]

theorem C9_imageNameCheck_witness : matchesNameRegex "environmentd" = true :=
  (C9_imageNameCheck "environmentd").2 (by decide) (by decide)

/-! ### C4: try_pull and acquire -/

/-- C4: contrary to the claim (and to the docstring of `try_pull`), the
code can never report that an image was not found.  When the image is
already acquired, no pull is performed and true is returned, and when the
pull succeeds the image is marked acquired and true is returned -- those
parts hold -- but when the pull fails after the retry budget, `try_pull`
does not return false: the `SubprocessError` of `run_with_retries`
propagates, because `self.acquired = True` follows the call
unconditionally with no exception handler.  Consequently the
`deps_to_build` collection of `acquire()` is empty on every run that
completes, so `acquire()` can never build anything. -/
theorem C4_try_pull_never_false :
    (∀ (pullSucceeds : Bool) (st : PullState) (r : Bool × PullState),
      try_pull pullSucceeds st = Except.ok r → r.1 = true) ∧
    try_pull false ⟨false⟩ = Except.error SpawnErr.subprocessError ∧
    (∀ (deps : List (Bool × PullState)) (l : List PullState),
      acquire_deps_to_build deps = Except.ok l → l = []) := by
  have h1 : ∀ (pullSucceeds : Bool) (st : PullState) (r : Bool × PullState),
      try_pull pullSucceeds st = Except.ok r → r.1 = true := by
    intro ps st r h
    rcases st with ⟨a⟩
    cases a <;> cases ps <;>
      simp [try_pull, run_with_retries] at h <;> simp [← h]
  refine ⟨h1, rfl, ?_⟩
  intro deps
  induction deps with
  | nil =>
    intro l h
    simpa [acquire_deps_to_build] using h.symm
  | cons hd tl ih =>
    rcases hd with ⟨ps, st⟩
    intro l h
    simp only [acquire_deps_to_build] at h
    cases htp : try_pull ps st with
    | error e => rw [htp] at h; exact absurd h (by simp)
    | ok fs =>
      rcases fs with ⟨found, st2⟩
      have hfound : found = true := h1 ps st (found, st2) htp
      rw [htp] at h
      cases hrest : acquire_deps_to_build tl with
      | error e => rw [hrest] at h; exact absurd h (by simp)
      | ok l2 =>
        rw [hrest] at h
        have hl2 : l2 = [] := ih l2 hrest
        simp [hfound, hl2] at h
        exact h

theorem C4_witness :
    (true, (⟨true⟩ : PullState)).1 = true ∧ ([] : List PullState) = [] := by
  constructor
  · exact C4_try_pull_never_false.1 true ⟨false⟩ (true, ⟨true⟩) rfl
  · exact C4_try_pull_never_false.2.2 [(true, ⟨false⟩)] [] rfl

/-! ### C10: build does not touch acquired -/

/-- C10: `build()` leaves the `acquired` attribute of the
`ResolvedImage` unchanged (only the pre-image objects receive the stray
line 458 assignment); in particular an image that was not acquired stays
not acquired across a build.  `acquired` becomes true only through
`DependencySet.__init__`, which sets it iff the spec is among the locally
listed Docker images, or through a `try_pull` whose pull succeeded (or
that found the image already acquired). -/
theorem C10_acquired_frame :
    (∀ st : ResolvedImageState, (ResolvedImage.build_state st).acquired = st.acquired) ∧
    (∀ st : ResolvedImageState, st.acquired = false →
      (ResolvedImage.build_state st).acquired = false) ∧
    (∀ (spec : String) (known : List String),
      DependencySet.init_acquired spec known = true ↔ spec ∈ known) ∧
    (∀ (pullSucceeds : Bool) (st : PullState) (r : Bool × PullState),
      try_pull pullSucceeds st = Except.ok r → r.2.acquired = true →
      st.acquired = true ∨ pullSucceeds = true) := by
  refine ⟨fun st => rfl, fun st h => h, ?_, ?_⟩
  · intro spec known
    simp [DependencySet.init_acquired]
  · intro ps st r h _
    rcases st with ⟨a⟩
    cases a
    · cases ps
      · simp [try_pull, run_with_retries] at h
      · exact Or.inr rfl
    · exact Or.inl rfl

theorem C10_witness :
    (ResolvedImage.build_state ⟨false, [⟨false⟩]⟩).acquired = false ∧
    ("a" ∈ ["a", "b"]) ∧ (false = true ∨ true = true) := by
  refine ⟨C10_acquired_frame.2.1 ⟨false, [⟨false⟩]⟩ rfl, ?_, ?_⟩
  · exact (C10_acquired_frame.2.2.1 "a" ["a", "b"]).mp rfl
  · exact C10_acquired_frame.2.2.2 true ⟨false⟩ (true, ⟨true⟩) rfl rfl

/-! ### C5: the sanitizer flags of the cargo build command -/

theorem pythonRound_add_int (q0 : ℚ) (c : ℤ) (h0 : 0 ≤ q0) (h1 : q0 < 1) :
    pythonRound (q0 + c) =
      if q0 < 1/2 then c
      else if 1/2 < q0 then c + 1
      else if c % 2 = 0 then c else c + 1 := by
  have hf : ⌊q0 + (c : ℚ)⌋ = ⌊q0⌋ + c := Int.floor_add_int q0 c
  have hf0 : ⌊q0⌋ = 0 := Int.floor_eq_zero_iff.mpr ⟨h0, h1⟩
  rw [hf0] at hf
  simp only [zero_add] at hf
  have he : q0 + (c : ℚ) - ((c : ℤ) : ℚ) = q0 := by ring
  simp only [pythonRound, hf, he]

theorem ceil_add_int_frac (q0 : ℚ) (c : ℤ) (h0 : 0 < q0) (h1 : q0 ≤ 1) :
    ⌈q0 + (c : ℚ)⌉ = c + 1 := by
  have h2 : ⌈q0⌉ = 1 := by
    rw [Int.ceil_eq_iff]
    push_cast
    constructor <;> linarith
  rw [Int.ceil_add_int, h2]
  ring

/-- Python `round(n * 2 / 3)` against the ceiling: they agree unless
`n % 3 = 2`, where the fractional part 1/3 rounds down while the ceiling
rounds up. -/
theorem pythonRound_two_thirds (n : Nat) :
    pythonRound ((n * 2 : ℚ) / 3) =
      if n % 3 = 2 then ⌈(n * 2 : ℚ) / 3⌉ - 1 else ⌈(n * 2 : ℚ) / 3⌉ := by
  obtain ⟨k, hk⟩ : ∃ k, n = 3 * k + n % 3 := ⟨n / 3, by omega⟩
  have hr : n % 3 = 0 ∨ n % 3 = 1 ∨ n % 3 = 2 := by omega
  rcases hr with h | h | h <;> rw [h] at hk <;> rw [hk]
  · have hcond : ¬ ((3 * k + 0) % 3 = 2) := by omega
    rw [if_neg hcond]
    have hq : (((3 * k + 0 : ℕ) : ℚ) * 2) / 3 = 0 + ((2 * k : ℤ) : ℚ) := by push_cast; ring
    rw [hq, pythonRound_add_int 0 (2 * k) le_rfl (by norm_num), zero_add, Int.ceil_intCast]
    norm_num
  · have hcond : ¬ ((3 * k + 1) % 3 = 2) := by omega
    rw [if_neg hcond]
    have hq : (((3 * k + 1 : ℕ) : ℚ) * 2) / 3 = 2/3 + ((2 * k : ℤ) : ℚ) := by push_cast; ring
    rw [hq, pythonRound_add_int (2/3) (2 * k) (by norm_num) (by norm_num),
      ceil_add_int_frac (2/3) (2 * k) (by norm_num) (by norm_num)]
    norm_num
  · have hcond : (3 * k + 2) % 3 = 2 := by omega
    rw [if_pos hcond]
    have hq : (((3 * k + 2 : ℕ) : ℚ) * 2) / 3 = 1/3 + ((2 * k + 1 : ℤ) : ℚ) := by push_cast; ring
    rw [hq, pythonRound_add_int (1/3) (2 * k + 1) (by norm_num) (by norm_num),
      ceil_add_int_frac (1/3) (2 * k + 1) (by norm_num) (by norm_num)]
    norm_num

theorem cargoJobsArg_eval_two : cargoJobsArg 2 = "1" := by
  have h : pythonRound (((2 : ℕ) : ℚ) * 2 / 3) = 1 := by
    rw [show (((2 : ℕ) : ℚ) * 2) / 3 = 1/3 + ((1 : ℤ) : ℚ) by push_cast; ring,
      pythonRound_add_int (1/3) 1 (by norm_num) (by norm_num)]
    norm_num
  unfold cargoJobsArg
  rw [h]
  rfl

/-- C5 counterexample: at cpu_count = 2 the synthesized command passes
`--jobs 1` (Python `round(4/3) = 1`), but the claimed ceiling
`⌈2*2/3⌉ = 2`; so the jobs value is not `⌈2*N/3⌉` for every N. -/
theorem C5_counterexample :
    generate_cargo_build_command [] (fun _ => "p") (fun _ => "p")
        ⟨false, false, Sanitizer.address⟩ 2 ["x"] [] =
      ["--bin", "x", "--package=p", "--no-default-features", "--jobs", "1"] ∧
    ⌈((2 : ℕ) : ℚ) * 2 / 3⌉ = 2 ∧ "1" ≠ "2" := by
  refine ⟨?_, ?_, by decide⟩
  · have hcmd : generate_cargo_build_command [] (fun _ => "p") (fun _ => "p")
        ⟨false, false, Sanitizer.address⟩ 2 ["x"] [] =
        ["--bin", "x", "--package=p", "--no-default-features", "--jobs", cargoJobsArg 2] := by
      simp [generate_cargo_build_command, pySetAdd]
    rw [hcmd, cargoJobsArg_eval_two]
  · have hq : (((2 : ℕ) : ℚ) * 2) / 3 = 1/3 + ((1 : ℤ) : ℚ) := by push_cast; ring
    rw [hq, ceil_add_int_frac (1/3) 1 (by norm_num) (by norm_num)]
    norm_num

/-- C5 (amended): when a sanitizer other than none is enabled, the
synthesized cargo build command ends with the no-default-features flag
followed by `--jobs` and the string of `round(2*N/3)` (Python banker
rounding, exact over the rationals); that value equals `⌈2*N/3⌉` when
`N % 3 ≠ 2` and `⌈2*N/3⌉ - 1` when `N % 3 = 2`. -/
theorem C5_sanitizer_flags (cargo_base : List String)
    (crate_for_bin crate_for_example : String → String)
    (rd : RepositoryDetails) (cpu_count : Nat) (bins examples : List String)
    (hsan : rd.sanitizer ≠ Sanitizer.none) :
    (∃ pre, generate_cargo_build_command cargo_base crate_for_bin crate_for_example
        rd cpu_count bins examples =
      pre ++ ["--no-default-features", "--jobs", cargoJobsArg cpu_count]) ∧
    cargoJobsArg cpu_count = toString (pythonRound ((cpu_count * 2 : ℚ) / 3)) ∧
    pythonRound ((cpu_count * 2 : ℚ) / 3) =
      (if cpu_count % 3 = 2 then ⌈(cpu_count * 2 : ℚ) / 3⌉ - 1
       else ⌈(cpu_count * 2 : ℚ) / 3⌉) := by
  refine ⟨?_, rfl, pythonRound_two_thirds cpu_count⟩
  simp only [generate_cargo_build_command, if_pos hsan]
  exact ⟨_, List.append_assoc _ _ _⟩

theorem C5_witness :
    (∃ pre, generate_cargo_build_command [] (fun _ => "p") (fun _ => "p")
        ⟨false, false, Sanitizer.thread⟩ 3 ["x"] [] =
      pre ++ ["--no-default-features", "--jobs", cargoJobsArg 3]) ∧
    cargoJobsArg 3 = toString (pythonRound (((3 : ℕ) : ℚ) * 2 / 3)) ∧
    pythonRound (((3 : ℕ) : ℚ) * 2 / 3) =
      (if 3 % 3 = 2 then ⌈((3 : ℕ) : ℚ) * 2 / 3⌉ - 1
       else ⌈((3 : ℕ) : ℚ) * 2 / 3⌉) :=
  C5_sanitizer_flags [] (fun _ => "p") (fun _ => "p")
    ⟨false, false, Sanitizer.thread⟩ 3 ["x"] [] (by decide)

/-! ### C8: write_dockerfile faithfulness -/

/-- C8: the rendered Dockerfile has exactly the lines of the source file,
in order; a line on which the MZFROM regex does not match is emitted
byte-identically, and a matching line is emitted as FROM, a space, the
spec of the dependency named by the match group, and the unmatched tail
of the line. -/
theorem C8_write_dockerfile (depSpec : String → String) (lines : List (List Char)) :
    (write_dockerfile depSpec lines).length = lines.length ∧
    ∀ (k : Nat) (line : List Char), lines[k]? = Option.some line →
      (mzfromMatch line = Option.none →
        (write_dockerfile depSpec lines)[k]? = Option.some line) ∧
      ∀ grp rest, mzfromMatch line = Option.some (grp, rest) →
        (write_dockerfile depSpec lines)[k]? =
          Option.some ("FROM ".data ++ (depSpec (String.mk grp)).data ++ rest) := by
  constructor
  · simp [write_dockerfile]
  · intro k line hk
    constructor
    · intro hm
      simp [write_dockerfile, List.getElem?_map, hk, hm]
    · intro grp rest hm
      simp [write_dockerfile, List.getElem?_map, hk, hm]

theorem C8_witness :
    (write_dockerfile (fun n => "materialize/" ++ n ++ ":mzbuild-TAG")
      ["MZFROM materialized\n".data, "RUN echo\n".data])[0]? =
      Option.some ("FROM materialize/materialized:mzbuild-TAG\n".data) := by
  have h := ((C8_write_dockerfile (fun n => "materialize/" ++ n ++ ":mzbuild-TAG")
    ["MZFROM materialized\n".data, "RUN echo\n".data]).2 0 "MZFROM materialized\n".data
    rfl).2 "materialized".data "\n".data rfl
  exact h.trans (by decide)

/-! ### C6: cycle detection -/

/-- C6: resolving the cycle a -> b -> c -> a from target a raises the
circular dependency error whose reported path is [a, b, c, a] (rendered
as the diagram a -> b -> c -> a); and in general, re-entering any node
that is currently being visited fails with the current path extended by
the re-entered name. -/
theorem C6_circular_dependency :
    resolve_dependencies regCycle 10 [imgA] =
      Except.error (ResolveErr.circularDependency "a -> b -> c -> a"
        ["a", "b", "c", "a"]) ∧
    ∀ (images : List (String × Image)) (fuel : Nat) (image : Image)
      (path : List String) (st : VisitState),
      st.resolved.any (fun i => i.name = image.name) = false →
      st.visiting.contains image.name = true →
      visit images (fuel + 1) image path st =
        Except.error (ResolveErr.circularDependency
          (String.intercalate " -> " (path ++ [image.name])) (path ++ [image.name])) := by
  constructor
  · rfl
  · intro images fuel image path st h1 h2
    unfold visit
    rw [if_neg (by simp [h1]), if_pos h2]

theorem C6_witness :
    visit [] 1 ⟨"a", []⟩ ["z"] ⟨[], ["a"]⟩ =
      Except.error (ResolveErr.circularDependency "z -> a" ["z", "a"]) := by
  have h := C6_circular_dependency.2 [] 0 ⟨"a", []⟩ ["z"] ⟨[], ["a"]⟩ rfl rfl
  exact h

/-! ### C1: the fingerprint implements the canonical algorithm -/

theorem foldl_feed_pairs (init : Bytes) (l : List (String × Bytes)) :
    l.foldl (fun acc p => acc ++ strBytes p.1 ++ p.2 ++ [0]) init =
      init ++ (l.map (fun p => strBytes p.1 ++ p.2 ++ [0])).flatten := by
  induction l generalizing init with
  | nil => simp
  | cons p t ihl =>
    rw [List.foldl_cons, ihl]
    simp [List.append_assoc]

theorem specFeedH_eq (sha1 : Bytes → Bytes) (fs : String → FileStat) (ax : Axes)
    (inputs preExtras : List String) :
    specFeedH sha1 fs ax inputs preExtras = selfHashBytes sha1 fs ax inputs preExtras := by
  have h1 : ∀ (L : List String) (init : Bytes),
      L.foldl (fun acc rel_path =>
        acc ++ mode2be (simplified_file_mode (fs rel_path).st_mode) ++ strBytes rel_path ++
          sha1 (fs rel_path).contents ++ [0]) init =
      init ++ (L.map (fun rel_path =>
        mode2be (simplified_file_mode (fs rel_path).st_mode) ++ strBytes rel_path ++
          sha1 (fs rel_path).contents ++ [0])).flatten := by
    intro L
    induction L with
    | nil => intro init; simp
    | cons a t ihl =>
      intro init
      rw [List.foldl_cons, ihl]
      simp [List.append_assoc]
  have h2 : ∀ (L : List String) (init : Bytes),
      L.foldl (fun acc e => acc ++ strBytes e ++ [0]) init =
      init ++ (L.map (fun e => strBytes e ++ [0])).flatten := by
    intro L
    induction L with
    | nil => intro init; simp
    | cons a t ihl =>
      intro init
      rw [List.foldl_cons, ihl]
      simp [List.append_assoc]
  simp only [specFeedH, selfHashBytes, h1, h2]
  simp [List.append_assoc]

theorem depPairs_eq_fingerprintPairs (sha1 : Bytes → Bytes) (fs : String → FileStat)
    (ax : Axes) (ds : List RImage)
    (h : ∀ d ∈ ds, fingerprint sha1 fs ax d = fingerprintSpec sha1 fs ax d) :
    depPairs sha1 fs ax ds = fingerprintPairs sha1 fs ax ds := by
  induction ds with
  | nil => simp [depPairs, fingerprintPairs]
  | cons d t ihl =>
    simp only [depPairs, fingerprintPairs]
    rw [h d (by simp), ihl (fun x hx => h x (by simp [hx]))]

/-- C1: `fingerprint()` implements the canonical algorithm of the claim:
a hash H is fed, per input path in sorted order, the simplified mode as
two big-endian bytes, the relative path bytes, the SHA-1 digest of the
file contents and a zero byte, then per pre-image action in declared
order its extra bytes and a zero byte, then the literal axis strings; the
result is the digest of a hash F fed the digest of H and, per dependency
sorted by name, the dependency name bytes, its raw fingerprint and a zero
byte. -/
theorem C1_fingerprint_canonical (sha1 : Bytes → Bytes) (fs : String → FileStat)
    (ax : Axes) (img : RImage) :
    fingerprint sha1 fs ax img = fingerprintSpec sha1 fs ax img := by
  suffices h : ∀ (N : Nat) (img : RImage), sizeOf img ≤ N →
      fingerprint sha1 fs ax img = fingerprintSpec sha1 fs ax img from
    h (sizeOf img) img le_rfl
  intro N
  induction N with
  | zero =>
    intro img h
    exfalso
    cases img
    simp at h
  | succ n ih =>
    intro img hle
    cases img with
    | mk nm inputs preExtras deps =>
      have hdeps : ∀ d ∈ deps, fingerprint sha1 fs ax d = fingerprintSpec sha1 fs ax d := by
        intro d hd
        apply ih
        have h1 : sizeOf d < sizeOf deps := List.sizeOf_lt_of_mem hd
        have h2 : sizeOf (RImage.mk nm inputs preExtras deps) ≤ n + 1 := hle
        simp only [RImage.mk.sizeOf_spec] at h2
        omega
      simp only [fingerprint, fingerprintSpec]
      rw [depPairs_eq_fingerprintPairs sha1 fs ax deps hdeps, specFeedH_eq,
        foldl_feed_pairs]

/-! ### C7: topological soundness of resolve_dependencies -/

theorem except_map_ok {α β : Type} {f : α → β} {e : Except ResolveErr α} {v : β}
    (h : Except.map f e = Except.ok v) : ∃ u, e = Except.ok u ∧ v = f u := by
  cases e with
  | error e2 => simp [Except.map] at h
  | ok u =>
    refine ⟨u, rfl, ?_⟩
    simp only [Except.map, Except.ok.injEq] at h
    exact h.symm

theorem visitOk_refl (st : VisitState) : VisitOk st st :=
  ⟨⟨[], by simp, by simp⟩, fun _ h => h, fun h => h⟩

theorem visitOk_trans {st1 st2 st3 : VisitState} (h12 : VisitOk st1 st2)
    (h23 : VisitOk st2 st3) : VisitOk st1 st3 := by
  obtain ⟨⟨d1, hr1, hn1⟩, hv1, hc1⟩ := h12
  obtain ⟨⟨d2, hr2, hn2⟩, hv2, hc2⟩ := h23
  refine ⟨⟨d1 ++ d2, ?_, ?_⟩, fun n h => hv2 n (hv1 n h), fun h => hc2 (hc1 h)⟩
  · rw [hr2, hr1, List.append_assoc]
  · intro i hi
    rcases List.mem_append.mp hi with h | h
    · exact hn1 i h
    · exact fun hb => hn2 i h (hv1 _ hb)

theorem mem_names_of_any {l : List Image} {n : String}
    (h : l.any (fun i => i.name = n) = true) : n ∈ l.map Image.name := by
  simp only [List.any_eq_true, decide_eq_true_eq] at h
  obtain ⟨i, hi, hni⟩ := h
  exact List.mem_map.mpr ⟨i, hi, hni⟩

theorem any_append_left {l1 l2 : List Image} {p : Image → Bool} (h : l1.any p = true) :
    (l1 ++ l2).any p = true := by
  simp [List.any_append, h]

theorem closed_nil : Closed [] := by
  intro k img h
  simp at h

theorem closed_append {l : List Image} {img : Image} (hc : Closed l)
    (hd : ∀ d ∈ img.depends_on, d ∈ l.map Image.name) : Closed (l ++ [img]) := by
  intro k i hk d hdep
  rcases lt_trichotomy k l.length with h | h | h
  · have hk2 : l[k]? = Option.some i := by
      rw [List.getElem?_append_left h] at hk
      exact hk
    rw [List.take_append_of_le_length (le_of_lt h)]
    exact hc k i hk2 d hdep
  · subst h
    have hsome : (l ++ [img])[l.length]? = Option.some img := by
      rw [List.getElem?_append_right (le_refl _)]
      simp
    rw [hsome] at hk
    simp only [Option.some.injEq] at hk
    subst hk
    rw [List.take_left]
    exact hd d hdep
  · exfalso
    have hlen : k < (l ++ [img]).length := by
      by_contra hcon
      rw [List.getElem?_eq_none (le_of_not_lt hcon)] at hk
      exact absurd hk (by simp)
    simp only [List.length_append, List.length_cons, List.length_nil] at hlen
    omega

theorem closed_getElem {l : List Image} (hc : Closed l) (k : Nat) (img : Image)
    (hk : l[k]? = Option.some img) (d : String) (hd : d ∈ img.depends_on) :
    ∃ (j : Nat) (img2 : Image), j < k ∧ l[j]? = Option.some img2 ∧ img2.name = d := by
  have h := hc k img hk d hd
  obtain ⟨img2, hmem, hname⟩ := List.mem_map.mp h
  obtain ⟨j, hj⟩ := List.getElem?_of_mem hmem
  have hjlen : j < (l.take k).length := by
    by_contra hcon
    rw [List.getElem?_eq_none (le_of_not_lt hcon)] at hj
    exact absurd hj (by simp)
  have hjk : j < k := by
    rw [List.length_take] at hjlen
    omega
  refine ⟨j, img2, hjk, ?_, hname⟩
  rw [← List.getElem?_take_of_lt hjk]
  exact hj

/-- Soundness of the child loop of `visit`, given soundness of `visit`
itself at the inner fuel value. -/
theorem foldVisit_sound (images : List (String × Image)) (fuel : Nat)
    (hkeys : ∀ p ∈ images, (p.2).name = p.1)
    (IH : ∀ (image : Image) (path : List String) (st st' : VisitState),
      visit images fuel image path st = Except.ok st' →
      VisitOk st st' ∧ st'.resolved.any (fun i => i.name = image.name) = true) :
    ∀ (ds : List String) (path : List String) (st st' : VisitState),
      exceptFold (fun st2 d =>
          match lookupImage images d with
          | Option.none => Except.error (ResolveErr.keyError d)
          | Option.some child => visit images fuel child path st2) ds st =
        Except.ok st' →
      VisitOk st st' ∧ ∀ d ∈ ds, st'.resolved.any (fun i => i.name = d) = true := by
  intro ds
  induction ds with
  | nil =>
    intro path st st' h
    simp only [exceptFold, Except.ok.injEq] at h
    subst h
    exact ⟨visitOk_refl st, by simp⟩
  | cons d t ihds =>
    intro path st st' h
    simp only [exceptFold] at h
    cases hlk : lookupImage images d with
    | none =>
      simp only [hlk] at h
      exact absurd h (by simp)
    | some child =>
      simp only [hlk] at h
      cases hv : visit images fuel child path st with
      | error e =>
        rw [hv] at h
        exact absurd h (by simp)
      | ok st2 =>
        rw [hv] at h
        obtain ⟨hok1, hany1⟩ := IH child path st st2 hv
        obtain ⟨hok2, hany2⟩ := ihds path st2 st' h
        have hname : child.name = d := by
          unfold lookupImage at hlk
          cases hf : List.find? (fun p => decide (p.1 = d)) images with
          | none =>
            rw [hf] at hlk
            simp at hlk
          | some p =>
            rw [hf] at hlk
            simp only [Option.map_some'] at hlk
            have h1 := List.find?_some hf
            have h2 := List.mem_of_find?_eq_some hf
            have h3 : p.1 = d := by simpa using h1
            have h4 : (p.2).name = p.1 := hkeys p h2
            simp only [Option.some.injEq] at hlk
            rw [← hlk, h4, h3]
        refine ⟨visitOk_trans hok1 hok2, ?_⟩
        intro x hx
        rcases List.mem_cons.mp hx with hx | hx
        · subst hx
          obtain ⟨⟨Δ, hr, _⟩, _, _⟩ := hok2
          rw [hname] at hany1
          rw [hr]
          exact any_append_left hany1
        · exact hany2 x hx

/-- Soundness of `visit`: every successful visit only extends the
resolved list (with names that were not being visited), only grows the
visiting set, preserves the topological-order property, and leaves the
visited name in the resolved list. -/
theorem visit_sound (images : List (String × Image))
    (hkeys : ∀ p ∈ images, (p.2).name = p.1) :
    ∀ (fuel : Nat) (image : Image) (path : List String) (st st' : VisitState),
      visit images fuel image path st = Except.ok st' →
      VisitOk st st' ∧ st'.resolved.any (fun i => i.name = image.name) = true := by
  intro fuel
  induction fuel with
  | zero =>
    intro image path st st' h
    simp [visit] at h
  | succ n ih =>
    intro image path st st' h
    unfold visit at h
    by_cases h1 : st.resolved.any (fun i => i.name = image.name) = true
    · rw [if_pos h1] at h
      simp only [Except.ok.injEq] at h
      subst h
      exact ⟨visitOk_refl st, h1⟩
    · rw [if_neg h1] at h
      by_cases h2 : st.visiting.contains image.name = true
      · rw [if_pos h2] at h
        exact absurd h (by simp)
      · rw [if_neg h2] at h
        obtain ⟨st3, hf, hst⟩ := except_map_ok h
        obtain ⟨hok, hall⟩ := foldVisit_sound images n hkeys ih
          (isort strLe image.depends_on) (path ++ [image.name])
          ⟨st.resolved, image.name :: st.visiting⟩ st3 hf
        obtain ⟨⟨Δ, hr, hΔ⟩, hvmono, hclo⟩ := hok
        have hΔname : ∀ i ∈ Δ, i.name ≠ image.name ∧ i.name ∉ st.visiting := by
          intro i hi
          have hcc := hΔ i hi
          simp only [List.mem_cons, not_or] at hcc
          exact hcc
        have hnotin : st3.resolved.any (fun i => i.name = image.name) = false := by
          rw [hr, List.any_append]
          have ha : st.resolved.any (fun i => i.name = image.name) = false := by
            cases hx : st.resolved.any (fun i => i.name = image.name) with
            | false => rfl
            | true => exact absurd hx h1
          have hb : Δ.any (fun i => i.name = image.name) = false := by
            cases hx : Δ.any (fun i => i.name = image.name) with
            | false => rfl
            | true =>
              exfalso
              simp only [List.any_eq_true, decide_eq_true_eq] at hx
              obtain ⟨i, hi, hni⟩ := hx
              exact (hΔname i hi).1 hni
          rw [ha, hb]
          rfl
        have hodi : odInsert st3.resolved image = st3.resolved ++ [image] := by
          unfold odInsert
          rw [if_neg (by simp [hnotin])]
        have hst2 : st' = VisitState.mk (st3.resolved ++ [image]) st3.visiting := by
          rw [hst, hodi]
        subst hst2
        have h2f : image.name ∉ st.visiting := by
          intro hmem
          exact h2 (by simpa using hmem)
        refine ⟨⟨⟨Δ ++ [image], ?_, ?_⟩, ?_, ?_⟩, ?_⟩
        · simp only [hr, List.append_assoc]
        · intro i hi
          rcases List.mem_append.mp hi with hx | hx
          · exact (hΔname i hx).2
          · simp only [List.mem_singleton] at hx
            subst hx
            exact h2f
        · intro m hm
          exact hvmono m (by simp [hm])
        · intro hc
          apply closed_append (hclo hc)
          intro d hd
          apply mem_names_of_any
          exact hall d ((mem_isort strLe d image.depends_on).mpr hd)
        · simp

theorem resolveFold_sound (images : List (String × Image)) (fuel : Nat)
    (hkeys : ∀ p ∈ images, (p.2).name = p.1) :
    ∀ (ts : List Image) (st st' : VisitState),
      exceptFold (fun st t => visit images fuel t [] st) ts st = Except.ok st' →
      VisitOk st st' := by
  intro ts
  induction ts with
  | nil =>
    intro st st' h
    simp only [exceptFold, Except.ok.injEq] at h
    subst h
    exact visitOk_refl st
  | cons t ts iht =>
    intro st st' h
    simp only [exceptFold] at h
    cases hv : visit images fuel t [] st with
    | error e =>
      rw [hv] at h
      exact absurd h (by simp)
    | ok st2 =>
      rw [hv] at h
      exact visitOk_trans (visit_sound images hkeys fuel t [] st st2 hv).1 (iht st2 st' h)

/-- C7: whenever `resolve_dependencies` returns a dependency set (instead
of raising), the iteration order of the returned list is a topological
order: every image appears strictly after all of its dependencies.  (The
fuel argument is an artifact of the embedding of unbounded Python
recursion; the conclusion holds for every successful run at any fuel.)
The hypothesis `hkeys` is the `Repository.images` registry invariant:
every key maps to the image carrying that name. -/
theorem C7_resolve_dependencies_topological
    (images : List (String × Image)) (fuel : Nat) (targets : List Image)
    (l : List Image)
    (hkeys : ∀ p ∈ images, (p.2).name = p.1)
    (hok : resolve_dependencies images fuel targets = Except.ok l) :
    ∀ (k : Nat) (img : Image), l[k]? = Option.some img →
      ∀ d ∈ img.depends_on, ∃ (j : Nat) (img2 : Image),
        j < k ∧ l[j]? = Option.some img2 ∧ img2.name = d := by
  unfold resolve_dependencies at hok
  obtain ⟨st, hf, hl⟩ := except_map_ok hok
  have hvo := resolveFold_sound images fuel hkeys (isort imageLe targets) ⟨[], []⟩ st hf
  have hclosed : Closed st.resolved := hvo.2.2 closed_nil
  subst hl
  intro k img hk d hd
  exact closed_getElem hclosed k img hk d hd

theorem C7_witness :
    ∃ (j : Nat) (img2 : Image), j < 1 ∧
      ([imgCLeaf, imgB, imgA] : List Image)[j]? = Option.some img2 ∧
      img2.name = "c" :=
  C7_resolve_dependencies_topological regLinear 10 [imgA] [imgCLeaf, imgB, imgA]
    (by decide) rfl 1 imgB rfl "c" (by decide)

end Mzbuild
